import Mathlib

/-!
Verification of the nimbus-rave radar toolbox core against its specification.

Shallow embedding of:
* `src/librave/rack/drain/radar/Geometry.cpp` (4/3-Earth beam geometry),
* `src/librave/rack/drain/radar/Coordinates.cpp` (site frame and bin position),
* `src/librave/toolbox/odim_io_utilities.c` (ODIM attribute unit conversion and
  source-identifier parsing).

Floating-point arithmetic is embedded as exact real arithmetic (`ℝ`); the
elevation-bracketing search, which uses only comparisons and assignments, is
embedded over exact rationals (`ℚ`) so that it is executable.
-/

namespace Rave

/-! ## Geometry.cpp: constants -/

/-- Geometry.cpp:32-33: `EARTH_RADIUSi = 6371000; EARTH_RADIUS_43 = 4.0/3.0 * EARTH_RADIUSi`. -/
noncomputable def EARTH_RADIUS_43 : ℝ := 4 / 3 * 6371000

/-! ## Geometry.cpp: height/beam conversions (real arithmetic) -/

/-- Geometry.cpp:96-99 `Geometry::heightFromEtaBeam`:
`sqrt(a*a + b*b - 2.0*a*b*cos(M_PI/2.0 + eta)) - a` with `a = EARTH_RADIUS_43`. -/
noncomputable def heightFromEtaBeam (eta b : ℝ) : ℝ :=
  Real.sqrt (EARTH_RADIUS_43 * EARTH_RADIUS_43 + b * b -
    2 * EARTH_RADIUS_43 * b * Real.cos (Real.pi / 2 + eta)) - EARTH_RADIUS_43

/-- Geometry.cpp:122-125 `Geometry::heightFromEtaBeta`:
`a * (cos(eta)/cos(beta + eta) - 1.0)`. -/
noncomputable def heightFromEtaBeta (eta beta : ℝ) : ℝ :=
  EARTH_RADIUS_43 * (Real.cos eta / Real.cos (beta + eta) - 1)

/-- Geometry.cpp:134-138 `Geometry::heightFromEtaGround`:
`beta = g/(EARTH_RADIUS_43*2.0); a * (cos(eta)/cos(eta + beta) - 1.0)`. -/
noncomputable def heightFromEtaGround (eta g : ℝ) : ℝ :=
  EARTH_RADIUS_43 * (Real.cos eta / Real.cos (eta + g / (EARTH_RADIUS_43 * 2)) - 1)

/-- Geometry.cpp:151-154 `Geometry::beamFromBetaH`:
`sqrt((2.0*a)*(a+h)*(1.0-cos(beta)) + h*h)`. -/
noncomputable def beamFromBetaH (beta h : ℝ) : ℝ :=
  Real.sqrt (2 * EARTH_RADIUS_43 * (EARTH_RADIUS_43 + h) * (1 - Real.cos beta) + h * h)

/-- Geometry.cpp:166-172 `Geometry::beamFromEtaH`:
`c = a + h; gamma = eta + pi/2; beta = pi - gamma - asin(a*sin(gamma)/c);
 sin(beta) * c / sin(gamma)`. -/
noncomputable def beamFromEtaH (eta h : ℝ) : ℝ :=
  Real.sin (Real.pi - (eta + Real.pi / 2) -
      Real.arcsin (EARTH_RADIUS_43 * Real.sin (eta + Real.pi / 2) / (EARTH_RADIUS_43 + h))) *
    (EARTH_RADIUS_43 + h) / Real.sin (eta + Real.pi / 2)

/-! ## Geometry.cpp: findClosestElevations (exact rationals)

The member fields `elevationAngleLower/Upper` are C `float`s initialised to
`-M_PI/2.0` and `+M_PI/2.0`; the nearest 32-bit float to `M_PI/2` is exactly
`13176795 / 2^23`.  All stored elevations are `float`s and every comparison the
loop performs is exact on the represented values, so the whole routine is
faithfully embedded over `ℚ`. -/

/-- Value of the 32-bit float nearest to `M_PI/2`, exactly `13176795 / 2^23`
(written as a literal rational so that it evaluates in the kernel). -/
def halfPi32 : ℚ := Rat.mk' 13176795 8388608 (by decide) (by decide)

/-- Loop body of Geometry.cpp:53-81 `Geometry::findClosestElevations`: one pass
over the elevation list, state `(lowerIdx, lowerAngle)` and `(upperIdx, upperAngle)`;
`i` is the index of the head of the remaining list. -/
def fceLoop (t : ℚ) : List ℚ → Nat → Int × ℚ → Int × ℚ → (Int × ℚ) × (Int × ℚ)
  | [], _, lo, up => (lo, up)
  | e :: rest, i, lo, up =>
      fceLoop t rest (i + 1)
        (if lo.2 < e ∧ e ≤ t then ((i : Int), e) else lo)
        (if e < up.2 ∧ t ≤ e then ((i : Int), e) else up)

/-- Geometry.cpp:53-81 `Geometry::findClosestElevations`: returns
`((elevationIndexLower, elevationAngleLower), (elevationIndexUpper, elevationAngleUpper))`,
starting from the sentinels `(-1, -pi/2)` and `(-1, +pi/2)`. -/
def findClosestElevations (elevationAngles : List ℚ) (elevationAngle : ℚ) :
    (Int × ℚ) × (Int × ℚ) :=
  fceLoop elevationAngle elevationAngles 0 (-1, -halfPi32) (-1, halfPi32)

/-- Lower-state projection of `fceLoop` (the two state components evolve independently). -/
def fceLower (t : ℚ) : List ℚ → Nat → Int × ℚ → Int × ℚ
  | [], _, lo => lo
  | e :: rest, i, lo =>
      fceLower t rest (i + 1) (if lo.2 < e ∧ e ≤ t then ((i : Int), e) else lo)

/-- Upper-state projection of `fceLoop`. -/
def fceUpper (t : ℚ) : List ℚ → Nat → Int × ℚ → Int × ℚ
  | [], _, up => up
  | e :: rest, i, up =>
      fceUpper t rest (i + 1) (if e < up.2 ∧ t ≤ e then ((i : Int), e) else up)

/-- Reference: index and value of the greatest element `≤ t` of an ascending list. -/
def lastLeq (t : ℚ) : List ℚ → Option (Nat × ℚ)
  | [] => none
  | e :: rest =>
      if e ≤ t then some (((lastLeq t rest).map (fun p => (p.1 + 1, p.2))).getD (0, e))
      else none

/-- Reference: index and value of the first element `≥ t` of a list. -/
def firstGeq (t : ℚ) : List ℚ → Option (Nat × ℚ)
  | [] => none
  | e :: rest =>
      if t ≤ e then some (0, e)
      else (firstGeq t rest).map (fun p => (p.1 + 1, p.2))

/-! ## Coordinates.cpp: site frame and bin position -/

/-- Modelled from the spec: the constant `EARTH_RADIUS` used by Coordinates.cpp is
declared in a header that is not part of the sources; spec section 3 fixes
`R = 6371000 m`, matching `EARTH_RADIUSi` in Geometry.cpp:32. -/
noncomputable def EARTH_RADIUS : ℝ := 6371000

/-- C-standard `atan2(y, x)`, used by Coordinates.cpp:100 for the bin longitude. -/
noncomputable def atan2 (y x : ℝ) : ℝ :=
  if 0 < x then Real.arctan (y / x)
  else if x < 0 then
    (if 0 ≤ y then Real.arctan (y / x) + Real.pi else Real.arctan (y / x) - Real.pi)
  else if 0 < y then Real.pi / 2
  else if y < 0 then -(Real.pi / 2)
  else 0

/-- State produced by Coordinates.cpp:40-72 `Coordinates::origin`:
radar position vector `p0` and site unit vectors `e1` (East) and `e2` (North). -/
structure Coordinates where
  p01 : ℝ
  p02 : ℝ
  p03 : ℝ
  e11 : ℝ
  e12 : ℝ
  e13 : ℝ
  e21 : ℝ
  e22 : ℝ
  e23 : ℝ

/-- Coordinates.cpp:40-72 `Coordinates::origin(theta, phi)` (theta latitude, phi longitude). -/
noncomputable def Coordinates.origin (theta phi : ℝ) : Coordinates :=
  { p01 := EARTH_RADIUS * Real.cos phi * Real.cos theta
    p02 := EARTH_RADIUS * Real.sin phi * Real.cos theta
    p03 := EARTH_RADIUS * Real.sin theta
    e11 := -Real.sin phi
    e12 := Real.cos phi
    e13 := 0
    e21 := -Real.cos phi * Real.sin theta
    e22 := -Real.sin phi * Real.sin theta
    e23 := Real.cos theta }

/-- Result state of Coordinates.cpp:82-103 `Coordinates::setBinPosition`:
bin position vector `p` and surface coordinates `(phiBin, thetaBin)` = (lon, lat). -/
structure BinPosition where
  p1 : ℝ
  p2 : ℝ
  p3 : ℝ
  phiBin : ℝ
  thetaBin : ℝ

/-- Coordinates.cpp:82-103 `Coordinates::setBinPosition(azimuth, range)`:
`x1 = cos(range/(EARTH_RADIUS*2.0)); x2 = range*sin(azimuth); x3 = range*cos(azimuth);
 p = p0*x1 + e1*x2 + e2*x3; phiBin = atan2(p2, p1); thetaBin = asin(p3/EARTH_RADIUS)`. -/
noncomputable def Coordinates.setBinPosition (c : Coordinates) (azimuth range : ℝ) :
    BinPosition :=
  { p1 := c.p01 * Real.cos (range / (EARTH_RADIUS * 2)) + c.e11 * (range * Real.sin azimuth) +
      c.e21 * (range * Real.cos azimuth)
    p2 := c.p02 * Real.cos (range / (EARTH_RADIUS * 2)) + c.e12 * (range * Real.sin azimuth) +
      c.e22 * (range * Real.cos azimuth)
    p3 := c.p03 * Real.cos (range / (EARTH_RADIUS * 2)) + c.e13 * (range * Real.sin azimuth) +
      c.e23 * (range * Real.cos azimuth)
    phiBin := atan2
      (c.p02 * Real.cos (range / (EARTH_RADIUS * 2)) + c.e12 * (range * Real.sin azimuth) +
        c.e22 * (range * Real.cos azimuth))
      (c.p01 * Real.cos (range / (EARTH_RADIUS * 2)) + c.e11 * (range * Real.sin azimuth) +
        c.e21 * (range * Real.cos azimuth))
    thetaBin := Real.arcsin
      ((c.p03 * Real.cos (range / (EARTH_RADIUS * 2)) + c.e13 * (range * Real.sin azimuth) +
        c.e23 * (range * Real.cos azimuth)) / EARTH_RADIUS) }

/-- Spec-side formula of claim C3, written from the spec sentence: the bin's
Earth-centered position `p = p0*cos(range/(2R)) + eE*range*sin(azimuth) +
eN*range*cos(azimuth)` with `p0 = R*(cos lon*cos lat, sin lon*cos lat, sin lat)`,
`eE = (-sin lon, cos lon, 0)`, `eN = (-cos lon*sin lat, -sin lon*sin lat, cos lat)`. -/
noncomputable def specBinVector (theta phi azimuth range : ℝ) : ℝ × ℝ × ℝ :=
  (EARTH_RADIUS * (Real.cos phi * Real.cos theta) * Real.cos (range / (2 * EARTH_RADIUS)) +
     -Real.sin phi * (range * Real.sin azimuth) +
     -Real.cos phi * Real.sin theta * (range * Real.cos azimuth),
   EARTH_RADIUS * (Real.sin phi * Real.cos theta) * Real.cos (range / (2 * EARTH_RADIUS)) +
     Real.cos phi * (range * Real.sin azimuth) +
     -Real.sin phi * Real.sin theta * (range * Real.cos azimuth),
   EARTH_RADIUS * Real.sin theta * Real.cos (range / (2 * EARTH_RADIUS)) +
     0 * (range * Real.sin azimuth) + Real.cos theta * (range * Real.cos azimuth))

/-! ## odim_io_utilities.c: attribute unit conversion -/

/-- Value carried by a `RaveAttribute_t`, restricted to the formats
`odim_io_utilities.c` inspects (`Double`, `DoubleArray`) plus the remaining
formats which it leaves untouched. -/
inductive RaveAttributeValue where
  | double (v : ℝ)
  | doubleArray (vs : List ℝ)
  | long (v : ℤ)
  | str (s : String)

/-- Modelled from the spec: the `RaveIO_ODIM_Version` enumeration is declared in a
header outside the sources; only its linear order matters here ("Versions below
2.4 perform no conversion").  Versions are numbered UNDEFINED, 2.0, 2.1, 2.2,
2.3, 2.4 in ascending order. -/
def RaveIO_ODIM_Version_2_4 : Nat := 5

/-- Version constant one below 2.4 (ODIM 2.3). -/
def RaveIO_ODIM_Version_2_3 : Nat := 4

/-- Case-insensitive string equality (model of C `strcasecmp(a, b) == 0`,
which compares the strings character by character after lower-casing). -/
def strcaseeq (a b : String) : Bool :=
  a.toList.map Char.toLower == b.toList.map Char.toLower

/-- odim_io_utilities.c:95-126 `OdimIoUtilities_convertHowAttributeToInternalRave`:
read path, converts file units to internal units when the original version is at
least 2.4; returns the updated attribute value together with the C return code. -/
noncomputable def convertHowAttributeToInternalRave (attrname : String) (origversion : Nat)
    (inattr : RaveAttributeValue) : RaveAttributeValue × Int :=
  if origversion < RaveIO_ODIM_Version_2_4 then (inattr, 1)
  else
    match inattr with
    | .double v =>
        if strcaseeq "how/gasattn" attrname then (.double (v * 1000), 1)
        else if strcaseeq "how/minrange" attrname || strcaseeq "how/maxrange" attrname ||
            strcaseeq "how/melting_layer_top_A" attrname ||
            strcaseeq "how/melting_layer_bottom_A" attrname then (.double (v / 1000), 1)
        else if strcaseeq "how/nomTXpower" attrname || strcaseeq "how/peakpwr" attrname ||
            strcaseeq "how/avgpwr" attrname then
          (.double ((10 : ℝ) ^ ((v - 30) / 10) / 1000), 1)
        else (.double v, 1)
    | .doubleArray vs =>
        if strcaseeq "how/TXpower" attrname then
          (.doubleArray (vs.map fun x => (10 : ℝ) ^ ((x - 30) / 10) / 1000), 1)
        else (.doubleArray vs, 1)
    | other => (other, 1)

/-- odim_io_utilities.c:128-163 `OdimIoUtilities_convertHowAttributeFromInternalRave`:
write path, converts internal units to file units when the output version is at
least 2.4; the power attributes are converted only when the value is `> 0`. -/
noncomputable def convertHowAttributeFromInternalRave (attrname : String) (outversion : Nat)
    (inattr : RaveAttributeValue) : RaveAttributeValue × Int :=
  if outversion < RaveIO_ODIM_Version_2_4 then (inattr, 1)
  else
    match inattr with
    | .double v =>
        if strcaseeq "how/gasattn" attrname then (.double (v / 1000), 1)
        else if strcaseeq "how/minrange" attrname || strcaseeq "how/maxrange" attrname ||
            strcaseeq "how/melting_layer_top_A" attrname ||
            strcaseeq "how/melting_layer_bottom_A" attrname then (.double (v * 1000), 1)
        else if strcaseeq "how/nomTXpower" attrname || strcaseeq "how/peakpwr" attrname ||
            strcaseeq "how/avgpwr" attrname then
          (.double (if 0 < v then 10 * Real.logb 10 (1000 * v) + 30 else v), 1)
        else (.double v, 1)
    | .doubleArray vs =>
        if strcaseeq "how/TXpower" attrname then
          (.doubleArray (vs.map fun x => if 0 < x then 10 * Real.logb 10 (1000 * x) + 30 else x), 1)
        else (.doubleArray vs, 1)
    | other => (other, 1)

/-! ## odim_io_utilities.c: source-identifier parsing -/

/-- Whether the pattern (first argument) occurs at the start of the second list. -/
def leadsWith : List Char → List Char → Bool
  | [], _ => true
  | _ :: _, [] => false
  | a :: p, b :: s => a == b && leadsWith p s

/-- Index of the first occurrence of `pat` in the haystack (model of C `strstr`);
`none` when `pat` does not occur. -/
def strstrIdx (pat : List Char) : List Char → Option Nat
  | [] => if leadsWith pat [] then some 0 else none
  | c :: rest =>
      if leadsWith pat (c :: rest) then some 0
      else (strstrIdx pat rest).map (fun n => n + 1)

/-- Characters before the first comma (models the `strpbrk(p, ",")` length
computation in odim_io_utilities.c:340-344: the whole remainder when no comma). -/
def takeUntilComma : List Char → List Char
  | [] => []
  | c :: rest => if c = ',' then [] else c :: takeUntilComma rest

/-- odim_io_utilities.c:330-353 `OdimIoUtilities_getIdFromSource`: `some value`
models return code 1 with `value` written NUL-terminated into `buf`; `none`
models return code 0 with the buffer left unwritten. -/
def OdimIoUtilities_getIdFromSource (source id : List Char) (buflen : Nat) :
    Option (List Char) :=
  match strstrIdx id source with
  | none => none
  | some i =>
      let v := takeUntilComma (source.drop (i + id.length))
      if v.length + 1 < buflen then some v else none

/-- odim_io_utilities.c:355-362 `OdimIoUtilities_getNodOrCmtFromSource`:
tries key `NOD:` first and falls back to `CMT:` on failure. -/
def OdimIoUtilities_getNodOrCmtFromSource (source : List Char) (buflen : Nat) :
    Option (List Char) :=
  match OdimIoUtilities_getIdFromSource source "NOD:".toList buflen with
  | some v => some v
  | none => OdimIoUtilities_getIdFromSource source "CMT:".toList buflen

/-! ## findClosestElevations: loop characterisation lemmas -/

/-- The two state components of the scan evolve independently. -/
theorem fceLoop_eq (t : ℚ) :
    ∀ (S : List ℚ) (i : Nat) (lo up : Int × ℚ),
      fceLoop t S i lo up = (fceLower t S i lo, fceUpper t S i up)
  | [], _, _, _ => rfl
  | e :: rest, i, lo, up => by
      simp only [fceLoop, fceLower, fceUpper]
      exact fceLoop_eq t rest (i + 1) _ _

/-- When every element exceeds `t`, no element qualifies as a lower bracket. -/
theorem lastLeq_none_of_forall (t : ℚ) (S : List ℚ) (h : ∀ x ∈ S, t < x) :
    lastLeq t S = none := by
  cases S with
  | nil => rfl
  | cons e rest =>
      have he : ¬ e ≤ t := not_le.mpr (h e (List.mem_cons_self e rest))
      simp [lastLeq, he]

/-- Converse on ascending lists: `lastLeq = none` forces every element above `t`. -/
theorem forall_lt_of_lastLeq_none (t : ℚ) :
    ∀ (S : List ℚ), List.Pairwise (fun a b => a < b) S → lastLeq t S = none →
      ∀ x ∈ S, t < x
  | [], _, _, x, hx => absurd hx (List.not_mem_nil x)
  | e :: rest, hp, hnone, x, hx => by
      by_cases he : e ≤ t
      · exfalso
        simp [lastLeq, he] at hnone
      · rcases List.mem_cons.mp hx with rfl | hxr
        · exact not_le.mp he
        · exact lt_trans (not_le.mp he) ((List.pairwise_cons.mp hp).1 x hxr)

/-- When no element is `≥ t`, there is no upper bracket. -/
theorem firstGeq_none_of_forall (t : ℚ) :
    ∀ (S : List ℚ), (∀ x ∈ S, x < t) → firstGeq t S = none
  | [], _ => rfl
  | e :: rest, h => by
      have he : ¬ t ≤ e := not_le.mpr (h e (List.mem_cons_self e rest))
      simp only [firstGeq, if_neg he,
        firstGeq_none_of_forall t rest (fun x hx => h x (List.mem_cons_of_mem e hx)),
        Option.map_none']

/-- Converse: `firstGeq = none` forces every element below `t` (no sortedness needed). -/
theorem forall_lt_of_firstGeq_none (t : ℚ) :
    ∀ (S : List ℚ), firstGeq t S = none → ∀ x ∈ S, x < t
  | [], _, x, hx => absurd hx (List.not_mem_nil x)
  | e :: rest, hnone, x, hx => by
      by_cases ht : t ≤ e
      · exfalso
        simp [firstGeq, ht] at hnone
      · rcases List.mem_cons.mp hx with rfl | hxr
        · exact not_le.mp ht
        · have hrest : firstGeq t rest = none := by
            by_contra hne
            rcases Option.ne_none_iff_exists'.mp hne with ⟨q, hq⟩
            simp [firstGeq, ht, hq] at hnone
          exact forall_lt_of_firstGeq_none t rest hrest x hxr

/-- The lower scan never moves once the candidate is not above the threshold state. -/
theorem fceLower_char_none (t : ℚ) :
    ∀ (S : List ℚ) (i : Nat) (lo : Int × ℚ),
      List.Pairwise (fun a b => a < b) S → lastLeq t S = none →
      fceLower t S i lo = lo
  | [], _, _, _, _ => rfl
  | e :: rest, i, lo, hp, hnone => by
      obtain ⟨hhead, htail⟩ := List.pairwise_cons.mp hp
      have he : ¬ e ≤ t := by
        intro he
        simp [lastLeq, he] at hnone
      have hcond : ¬ (lo.2 < e ∧ e ≤ t) := fun h => he h.2
      have hrest : lastLeq t rest = none :=
        lastLeq_none_of_forall t rest fun x hx => lt_trans (not_le.mp he) (hhead x hx)
      simp only [fceLower, if_neg hcond]
      exact fceLower_char_none t rest (i + 1) lo htail hrest

/-- On an ascending list whose elements all exceed the accumulator, the lower
scan ends at the greatest element `≤ t` (index offset by the base index). -/
theorem fceLower_char_some (t : ℚ) :
    ∀ (S : List ℚ) (i : Nat) (lo : Int × ℚ) (p : Nat × ℚ),
      List.Pairwise (fun a b => a < b) S → (∀ e ∈ S, lo.2 < e) →
      lastLeq t S = some p →
      fceLower t S i lo = (((i + p.1 : Nat) : Int), p.2)
  | [], _, _, _, _, _, hsome => by simp [lastLeq] at hsome
  | e :: rest, i, lo, p, hp, hbnd, hsome => by
      obtain ⟨hhead, htail⟩ := List.pairwise_cons.mp hp
      by_cases he : e ≤ t
      · have hcond : lo.2 < e ∧ e ≤ t := ⟨hbnd e (List.mem_cons_self e rest), he⟩
        have hstep : fceLower t (e :: rest) i lo = fceLower t rest (i + 1) ((i : Int), e) := by
          simp only [fceLower, if_pos hcond]
        cases hl : lastLeq t rest with
        | none =>
            have hpv : p = (0, e) := by
              have : lastLeq t (e :: rest) = some (0, e) := by simp [lastLeq, he, hl]
              rw [this] at hsome
              exact (Option.some_inj.mp hsome).symm
            rw [hstep, fceLower_char_none t rest (i + 1) _ htail hl, hpv]
            simp
        | some q =>
            have hpv : p = (q.1 + 1, q.2) := by
              have : lastLeq t (e :: rest) = some (q.1 + 1, q.2) := by
                simp [lastLeq, he, hl]
              rw [this] at hsome
              exact (Option.some_inj.mp hsome).symm
            rw [hstep, fceLower_char_some t rest (i + 1) ((i : Int), e) q htail hhead hl, hpv]
            have : i + 1 + q.1 = i + (q.1 + 1) := by omega
            rw [this]
      · exfalso
        simp [lastLeq, he] at hsome

/-- Once every remaining element is at least the held upper angle, the upper
scan is frozen. -/
theorem fceUpper_stable (t : ℚ) :
    ∀ (S : List ℚ) (i : Nat) (up : Int × ℚ),
      (∀ e ∈ S, up.2 ≤ e) → fceUpper t S i up = up
  | [], _, _, _ => rfl
  | e :: rest, i, up, hbnd => by
      have hcond : ¬ (e < up.2 ∧ t ≤ e) := fun h =>
        absurd h.1 (not_lt.mpr (hbnd e (List.mem_cons_self e rest)))
      simp only [fceUpper, if_neg hcond]
      exact fceUpper_stable t rest (i + 1) up fun x hx =>
        hbnd x (List.mem_cons_of_mem e hx)

/-- When no element is `≥ t` the upper scan keeps its sentinel. -/
theorem fceUpper_char_none (t : ℚ) :
    ∀ (S : List ℚ) (i : Nat) (up : Int × ℚ),
      firstGeq t S = none → fceUpper t S i up = up
  | [], _, _, _ => rfl
  | e :: rest, i, up, hnone => by
      have ht : ¬ t ≤ e := by
        intro ht
        simp [firstGeq, ht] at hnone
      have hrest : firstGeq t rest = none := by
        by_contra hne
        rcases Option.ne_none_iff_exists'.mp hne with ⟨q, hq⟩
        simp [firstGeq, ht, hq] at hnone
      have hcond : ¬ (e < up.2 ∧ t ≤ e) := fun h => ht h.2
      simp only [fceUpper, if_neg hcond]
      exact fceUpper_char_none t rest (i + 1) up hrest

/-- On an ascending list whose elements are all below the held upper angle, the
upper scan ends at the first element `≥ t` (index offset by the base index). -/
theorem fceUpper_char_some (t : ℚ) :
    ∀ (S : List ℚ) (i : Nat) (up : Int × ℚ) (p : Nat × ℚ),
      List.Pairwise (fun a b => a < b) S → (∀ e ∈ S, e < up.2) →
      firstGeq t S = some p →
      fceUpper t S i up = (((i + p.1 : Nat) : Int), p.2)
  | [], _, _, _, _, _, hsome => by simp [firstGeq] at hsome
  | e :: rest, i, up, p, hp, hbnd, hsome => by
      obtain ⟨hhead, htail⟩ := List.pairwise_cons.mp hp
      by_cases ht : t ≤ e
      · have hpv : p = (0, e) := by
          have : firstGeq t (e :: rest) = some (0, e) := by simp [firstGeq, ht]
          rw [this] at hsome
          exact (Option.some_inj.mp hsome).symm
        have hcond : e < up.2 ∧ t ≤ e := ⟨hbnd e (List.mem_cons_self e rest), ht⟩
        have hstep : fceUpper t (e :: rest) i up = fceUpper t rest (i + 1) ((i : Int), e) := by
          simp only [fceUpper, if_pos hcond]
        rw [hstep, fceUpper_stable t rest (i + 1) _ fun x hx => le_of_lt (hhead x hx), hpv]
        simp
      · have hcond : ¬ (e < up.2 ∧ t ≤ e) := fun h => ht h.2
        have hstep : fceUpper t (e :: rest) i up = fceUpper t rest (i + 1) up := by
          simp only [fceUpper, if_neg hcond]
        rcases hq : firstGeq t rest with _ | q
        · exfalso
          simp [firstGeq, ht, hq] at hsome
        · have hpv : p = (q.1 + 1, q.2) := by
            have : firstGeq t (e :: rest) = some (q.1 + 1, q.2) := by
              simp [firstGeq, ht, hq]
            rw [this] at hsome
            exact (Option.some_inj.mp hsome).symm
          rw [hstep, fceUpper_char_some t rest (i + 1) up q htail
            (fun x hx => hbnd x (List.mem_cons_of_mem e hx)) hq, hpv]
          have : i + 1 + q.1 = i + (q.1 + 1) := by omega
          rw [this]

/-- The lower bracket reference points at the greatest element `≤ t`. -/
theorem lastLeq_spec (t : ℚ) :
    ∀ (S : List ℚ), List.Pairwise (fun a b => a < b) S →
      ∀ p : Nat × ℚ, lastLeq t S = some p →
        ∃ h : p.1 < S.length,
          S.get ⟨p.1, h⟩ = p.2 ∧ p.2 ≤ t ∧ ∀ e ∈ S, e ≤ t → e ≤ p.2
  | [], _, p, hsome => by simp [lastLeq] at hsome
  | e :: rest, hp, p, hsome => by
      obtain ⟨hhead, htail⟩ := List.pairwise_cons.mp hp
      by_cases he : e ≤ t
      · cases hl : lastLeq t rest with
        | none =>
            have hpv : p = (0, e) := by
              have : lastLeq t (e :: rest) = some (0, e) := by simp [lastLeq, he, hl]
              rw [this] at hsome
              exact (Option.some_inj.mp hsome).symm
            subst hpv
            refine ⟨Nat.succ_pos _, rfl, he, ?_⟩
            intro x hx hxt
            rcases List.mem_cons.mp hx with rfl | hxr
            · exact le_refl x
            · exact absurd hxt (not_le.mpr (forall_lt_of_lastLeq_none t rest htail hl x hxr))
        | some q =>
            have hpv : p = (q.1 + 1, q.2) := by
              have : lastLeq t (e :: rest) = some (q.1 + 1, q.2) := by
                simp [lastLeq, he, hl]
              rw [this] at hsome
              exact (Option.some_inj.mp hsome).symm
            subst hpv
            obtain ⟨hq, hget, hle, hmax⟩ := lastLeq_spec t rest htail q hl
            refine ⟨Nat.succ_lt_succ hq, hget, hle, ?_⟩
            intro x hx hxt
            rcases List.mem_cons.mp hx with rfl | hxr
            · have hmem : q.2 ∈ rest := hget ▸ rest.get_mem _ _
              exact le_of_lt (hhead q.2 hmem)
            · exact hmax x hxr hxt
      · exfalso
        simp [lastLeq, he] at hsome

/-- The upper bracket reference points at the least element `≥ t`. -/
theorem firstGeq_spec (t : ℚ) :
    ∀ (S : List ℚ), List.Pairwise (fun a b => a < b) S →
      ∀ p : Nat × ℚ, firstGeq t S = some p →
        ∃ h : p.1 < S.length,
          S.get ⟨p.1, h⟩ = p.2 ∧ t ≤ p.2 ∧ ∀ e ∈ S, t ≤ e → p.2 ≤ e
  | [], _, p, hsome => by simp [firstGeq] at hsome
  | e :: rest, hp, p, hsome => by
      obtain ⟨hhead, htail⟩ := List.pairwise_cons.mp hp
      by_cases ht : t ≤ e
      · have hpv : p = (0, e) := by
          have : firstGeq t (e :: rest) = some (0, e) := by simp [firstGeq, ht]
          rw [this] at hsome
          exact (Option.some_inj.mp hsome).symm
        subst hpv
        refine ⟨Nat.succ_pos _, rfl, ht, ?_⟩
        intro x hx _
        rcases List.mem_cons.mp hx with rfl | hxr
        · exact le_refl x
        · exact le_of_lt (hhead x hxr)
      · rcases hq : firstGeq t rest with _ | q
        · exfalso
          simp [firstGeq, ht, hq] at hsome
        · have hpv : p = (q.1 + 1, q.2) := by
            have : firstGeq t (e :: rest) = some (q.1 + 1, q.2) := by
              simp [firstGeq, ht, hq]
            rw [this] at hsome
            exact (Option.some_inj.mp hsome).symm
          subst hpv
          obtain ⟨hfin, hget, hle, hmin⟩ := firstGeq_spec t rest htail q hq
          refine ⟨Nat.succ_lt_succ hfin, hget, hle, ?_⟩
          intro x hx hxt
          rcases List.mem_cons.mp hx with rfl | hxr
          · exact absurd hxt ht
          · exact hmin x hxr hxt

/-- Head of an ascending list is its minimum. -/
theorem sorted_head_le (S : List ℚ) (hp : List.Pairwise (fun a b => a < b) S)
    (hne : S ≠ []) : ∀ x ∈ S, S.head hne ≤ x := by
  cases S with
  | nil => exact absurd rfl hne
  | cons e rest =>
      intro x hx
      rcases List.mem_cons.mp hx with rfl | hxr
      · exact le_refl x
      · exact le_of_lt ((List.pairwise_cons.mp hp).1 x hxr)

/-- Last element of an ascending list is its maximum. -/
theorem sorted_le_getLast :
    ∀ (S : List ℚ), List.Pairwise (fun a b => a < b) S → ∀ (hne : S ≠ []),
      ∀ x ∈ S, x ≤ S.getLast hne
  | [], _, hne, _, _ => absurd rfl hne
  | [e], _, _, x, hx => by
      rcases List.mem_cons.mp hx with rfl | hxr
      · exact le_refl x
      · exact absurd hxr (List.not_mem_nil x)
  | e :: f :: rest, hp, _, x, hx => by
      obtain ⟨hhead, htail⟩ := List.pairwise_cons.mp hp
      rw [List.getLast_cons (List.cons_ne_nil f rest)]
      rcases List.mem_cons.mp hx with rfl | hxr
      · exact le_of_lt (lt_of_lt_of_le
          (hhead f (List.mem_cons_self f rest))
          (sorted_le_getLast (f :: rest) htail (List.cons_ne_nil f rest) f
            (List.mem_cons_self f rest)))
      · exact sorted_le_getLast (f :: rest) htail (List.cons_ne_nil f rest) x hxr

/-! ## Claim theorems: C1 (elevation bracketing) -/

/-- C1 counterexample: the claim quantifies over every strictly ascending
elevation list; for `S = [2]` (2 rad exceeds the float `pi/2` sentinel) and
target `t = 2`, `t` lies within `[min S, max S]` yet the upper index stays at
the `-1` sentinel, so "valid indices exactly when `t ∈ [min S, max S]`" fails. -/
theorem findClosestElevations_counterexample :
    List.Pairwise (fun a b => a < b) [(2 : ℚ)] ∧
    (∃ e ∈ [(2 : ℚ)], e ≤ 2) ∧ (∃ e ∈ [(2 : ℚ)], 2 ≤ e) ∧
    (findClosestElevations [(2 : ℚ)] 2).1.1 = 0 ∧
    (findClosestElevations [(2 : ℚ)] 2).2.1 = -1 := by decide

/-- C1 (amended): for every strictly ascending elevation list whose elements
lie strictly between the float sentinels `-pi/2` and `+pi/2`,
`findClosestElevations` returns two valid indices (both different from `-1`)
exactly when the target lies within `[min S, max S]`; the returned indices
`(l, u)` satisfy `S[l] ≤ t ≤ S[u]` with no element of `S` strictly between
`S[l]` and `S[u]`; and a side with no qualifying element is reported with the
`-1` sentinel. -/
theorem findClosestElevations_correct (S : List ℚ) (t : ℚ)
    (hsort : List.Pairwise (fun a b => a < b) S)
    (hbnd : ∀ e ∈ S, -halfPi32 < e ∧ e < halfPi32) :
    ((findClosestElevations S t).1.1 = -1 ↔ ∀ e ∈ S, t < e) ∧
    ((findClosestElevations S t).2.1 = -1 ↔ ∀ e ∈ S, e < t) ∧
    (∀ hne : S ≠ [],
      (((findClosestElevations S t).1.1 ≠ -1 ∧ (findClosestElevations S t).2.1 ≠ -1) ↔
        (S.head hne ≤ t ∧ t ≤ S.getLast hne))) ∧
    (∀ l u : Nat,
      (findClosestElevations S t).1.1 = (l : Int) →
      (findClosestElevations S t).2.1 = (u : Int) →
      ∃ (hl : l < S.length) (hu : u < S.length),
        S.get ⟨l, hl⟩ = (findClosestElevations S t).1.2 ∧
        S.get ⟨u, hu⟩ = (findClosestElevations S t).2.2 ∧
        S.get ⟨l, hl⟩ ≤ t ∧ t ≤ S.get ⟨u, hu⟩ ∧
        ∀ e ∈ S, ¬ (S.get ⟨l, hl⟩ < e ∧ e < S.get ⟨u, hu⟩)) := by
  have hbl : ∀ e ∈ S, ((-1 : Int), -halfPi32).2 < e := fun e he => (hbnd e he).1
  have hbu : ∀ e ∈ S, e < ((-1 : Int), halfPi32).2 := fun e he => (hbnd e he).2
  have hsplit : findClosestElevations S t =
      (fceLower t S 0 (-1, -halfPi32), fceUpper t S 0 (-1, halfPi32)) :=
    fceLoop_eq t S 0 _ _
  have hlowc : ∀ p : Nat × ℚ, lastLeq t S = some p →
      (findClosestElevations S t).1 = ((p.1 : Int), p.2) := by
    intro p hp
    rw [hsplit]
    simpa using fceLower_char_some t S 0 _ p hsort hbl hp
  have hlown : lastLeq t S = none →
      (findClosestElevations S t).1 = (-1, -halfPi32) := by
    intro hp
    rw [hsplit]
    exact fceLower_char_none t S 0 _ hsort hp
  have hupc : ∀ p : Nat × ℚ, firstGeq t S = some p →
      (findClosestElevations S t).2 = ((p.1 : Int), p.2) := by
    intro p hp
    rw [hsplit]
    simpa using fceUpper_char_some t S 0 _ p hsort hbu hp
  have hupn : firstGeq t S = none →
      (findClosestElevations S t).2 = (-1, halfPi32) := by
    intro hp
    rw [hsplit]
    exact fceUpper_char_none t S 0 _ hp
  have hA : (findClosestElevations S t).1.1 = -1 ↔ ∀ e ∈ S, t < e := by
    cases hl : lastLeq t S with
    | none =>
        rw [hlown hl]
        exact ⟨fun _ => forall_lt_of_lastLeq_none t S hsort hl, fun _ => rfl⟩
    | some p =>
        rw [hlowc p hl]
        obtain ⟨hfin, hget, hle, _⟩ := lastLeq_spec t S hsort p hl
        constructor
        · intro h
          exact absurd (show ((p.1 : Nat) : Int) = -1 from h) (by omega)
        · intro hall
          exact absurd hle (not_le.mpr (hall p.2 (hget ▸ S.get_mem _ _)))
  have hB : (findClosestElevations S t).2.1 = -1 ↔ ∀ e ∈ S, e < t := by
    cases hg : firstGeq t S with
    | none =>
        rw [hupn hg]
        exact ⟨fun _ => forall_lt_of_firstGeq_none t S hg, fun _ => rfl⟩
    | some q =>
        rw [hupc q hg]
        obtain ⟨hfin, hget, hge, _⟩ := firstGeq_spec t S hsort q hg
        constructor
        · intro h
          exact absurd (show ((q.1 : Nat) : Int) = -1 from h) (by omega)
        · intro hall
          exact absurd hge (not_le.mpr (hall q.2 (hget ▸ S.get_mem _ _)))
  have hC : ∀ hne : S ≠ [],
      (((findClosestElevations S t).1.1 ≠ -1 ∧ (findClosestElevations S t).2.1 ≠ -1) ↔
        (S.head hne ≤ t ∧ t ≤ S.getLast hne)) := by
    intro hne
    have hmin : (¬ ∀ e ∈ S, t < e) ↔ S.head hne ≤ t := by
      constructor
      · intro h
        push_neg at h
        obtain ⟨e, heS, het⟩ := h
        exact le_trans (sorted_head_le S hsort hne e heS) het
      · intro h hall
        exact absurd h (not_le.mpr (hall _ (List.head_mem hne)))
    have hmax : (¬ ∀ e ∈ S, e < t) ↔ t ≤ S.getLast hne := by
      constructor
      · intro h
        push_neg at h
        obtain ⟨e, heS, het⟩ := h
        exact le_trans het (sorted_le_getLast S hsort hne e heS)
      · intro h hall
        exact absurd h (not_le.mpr (hall _ (List.getLast_mem hne)))
    exact and_congr ((not_congr hA).trans hmin) ((not_congr hB).trans hmax)
  refine ⟨hA, hB, hC, ?_⟩
  intro l u hlEq huEq
  cases hl : lastLeq t S with
  | none =>
      have h' : (-1 : Int) = (l : Int) := by
        rw [hlown hl] at hlEq
        exact hlEq
      exact absurd h' (by omega)
  | some p =>
      cases hg : firstGeq t S with
      | none =>
          have h' : (-1 : Int) = (u : Int) := by
            rw [hupn hg] at huEq
            exact huEq
          exact absurd h' (by omega)
      | some q =>
          have hpl : p.1 = l := by
            have h' : ((p.1 : Nat) : Int) = (l : Int) := by
              rw [hlowc p hl] at hlEq
              exact hlEq
            exact_mod_cast h'
          have hqu : q.1 = u := by
            have h' : ((q.1 : Nat) : Int) = (u : Int) := by
              rw [hupc q hg] at huEq
              exact huEq
            exact_mod_cast h'
          obtain ⟨hfin, hget, hle, hmaxl⟩ := lastLeq_spec t S hsort p hl
          obtain ⟨hfin2, hget2, hge, hminu⟩ := firstGeq_spec t S hsort q hg
          subst hpl
          subst hqu
          refine ⟨hfin, hfin2, ?_, ?_, ?_, ?_, ?_⟩
          · rw [hlowc p hl]
            exact hget
          · rw [hupc q hg]
            exact hget2
          · rw [hget]
            exact hle
          · rw [hget2]
            exact hge
          · intro e heS hcontra
            rw [hget, hget2] at hcontra
            by_cases het : e ≤ t
            · exact absurd hcontra.1 (not_lt.mpr (hmaxl e heS het))
            · exact absurd hcontra.2
                (not_lt.mpr (hminu e heS (le_of_lt (not_le.mp het))))

/-- Witness for C1 (amended) on `S = [0, 1]`, `t = 1`. -/
theorem findClosestElevations_correct_witness :
    List.Pairwise (fun a b => a < b) [(0 : ℚ), 1] ∧
    (∀ e ∈ [(0 : ℚ), 1], -halfPi32 < e ∧ e < halfPi32) ∧
    ((findClosestElevations [(0 : ℚ), 1] 1).1.1 = -1 ↔
      ∀ e ∈ [(0 : ℚ), 1], (1 : ℚ) < e) :=
  ⟨by decide, by decide,
    (findClosestElevations_correct [(0 : ℚ), 1] 1 (by decide) (by decide)).1⟩

/-! ## Claim theorems: C3, C4 (geometry identities) -/


/-- C3: for every azimuth and range, `setBinPosition` computes the bin's
Earth-centered position `p = p0*cos(range/(2R)) + eE*range*sin(azimuth) +
eN*range*cos(azimuth)` using the spherical Earth radius `R` (not `R43`), and
sets the bin longitude to `atan2(p_y, p_x)` and latitude to `asin(p_z / R)`. -/
theorem setBinPosition_correct (theta phi azimuth range : ℝ) :
    ((Coordinates.origin theta phi).setBinPosition azimuth range).p1 =
      (specBinVector theta phi azimuth range).1 ∧
    ((Coordinates.origin theta phi).setBinPosition azimuth range).p2 =
      (specBinVector theta phi azimuth range).2.1 ∧
    ((Coordinates.origin theta phi).setBinPosition azimuth range).p3 =
      (specBinVector theta phi azimuth range).2.2 ∧
    ((Coordinates.origin theta phi).setBinPosition azimuth range).phiBin =
      atan2 (specBinVector theta phi azimuth range).2.1
        (specBinVector theta phi azimuth range).1 ∧
    ((Coordinates.origin theta phi).setBinPosition azimuth range).thetaBin =
      Real.arcsin ((specBinVector theta phi azimuth range).2.2 / EARTH_RADIUS) := by
  have harg : range / (EARTH_RADIUS * 2) = range / (2 * EARTH_RADIUS) := by ring
  have h1 : ((Coordinates.origin theta phi).setBinPosition azimuth range).p1 =
      (specBinVector theta phi azimuth range).1 := by
    simp only [Coordinates.origin, Coordinates.setBinPosition, specBinVector, harg]
    ring
  have h2 : ((Coordinates.origin theta phi).setBinPosition azimuth range).p2 =
      (specBinVector theta phi azimuth range).2.1 := by
    simp only [Coordinates.origin, Coordinates.setBinPosition, specBinVector, harg]
    ring
  have h3 : ((Coordinates.origin theta phi).setBinPosition azimuth range).p3 =
      (specBinVector theta phi azimuth range).2.2 := by
    simp only [Coordinates.origin, Coordinates.setBinPosition, specBinVector, harg]
  have hphi : ((Coordinates.origin theta phi).setBinPosition azimuth range).phiBin =
      atan2 ((Coordinates.origin theta phi).setBinPosition azimuth range).p2
        ((Coordinates.origin theta phi).setBinPosition azimuth range).p1 := rfl
  have htheta : ((Coordinates.origin theta phi).setBinPosition azimuth range).thetaBin =
      Real.arcsin (((Coordinates.origin theta phi).setBinPosition azimuth range).p3 /
        EARTH_RADIUS) := rfl
  exact ⟨h1, h2, h3, by rw [hphi, h1, h2], by rw [htheta, h3]⟩

/-- C4: `heightFromEtaGround(η, g)` is exactly `heightFromEtaBeta(η, g/(2a))`
with `a = EARTH_RADIUS_43`: the ground-distance variant is the beta variant at
ground angle `g/(2a)` (not `g/a`). -/
theorem heightFromEtaGround_eq_beta (eta g : ℝ) :
    heightFromEtaGround eta g = heightFromEtaBeta eta (g / (2 * EARTH_RADIUS_43)) := by
  unfold heightFromEtaGround heightFromEtaBeta
  rw [add_comm (g / (2 * EARTH_RADIUS_43)) eta, mul_comm (2 : ℝ) EARTH_RADIUS_43]

/-! ## Claim theorems: C2, C5 (geometry analysis) -/

/-- Cosine shifted a quarter turn, in the argument order used by the source. -/
theorem cos_pi_div_two_add_eq (x : ℝ) : Real.cos (Real.pi / 2 + x) = -Real.sin x := by
  rw [add_comm]
  exact Real.cos_add_pi_div_two x

/-- Exact inversion: on the physical domain `0 ≤ η < π/2`, `0 < b`, the beam
distance recovered from the cosine-rule height is exactly the original `b`. -/
theorem beam_height_inverse (eta b : ℝ)
    (h1 : 0 ≤ eta) (h2 : eta < Real.pi / 2) (hb : 0 < b) :
    beamFromEtaH eta (heightFromEtaBeam eta b) = b := by
  have ha : (0 : ℝ) < EARTH_RADIUS_43 := by norm_num [EARTH_RADIUS_43]
  have hsin : 0 ≤ Real.sin eta :=
    Real.sin_nonneg_of_nonneg_of_le_pi h1 (by linarith [Real.pi_pos])
  have hcos : 0 < Real.cos eta :=
    Real.cos_pos_of_mem_Ioo ⟨by linarith [Real.pi_pos], h2⟩
  have hinnerpos : 0 < EARTH_RADIUS_43 * EARTH_RADIUS_43 + b * b +
      2 * EARTH_RADIUS_43 * b * Real.sin eta := by
    nlinarith [mul_pos ha ha, mul_pos hb hb,
      mul_nonneg (mul_nonneg (mul_nonneg (by norm_num : (0 : ℝ) ≤ 2) ha.le) hb.le) hsin]
  unfold beamFromEtaH heightFromEtaBeam
  rw [cos_pi_div_two_add_eq,
    show EARTH_RADIUS_43 * EARTH_RADIUS_43 + b * b -
        2 * EARTH_RADIUS_43 * b * -Real.sin eta =
      EARTH_RADIUS_43 * EARTH_RADIUS_43 + b * b +
        2 * EARTH_RADIUS_43 * b * Real.sin eta from by ring]
  set s := Real.sqrt (EARTH_RADIUS_43 * EARTH_RADIUS_43 + b * b +
    2 * EARTH_RADIUS_43 * b * Real.sin eta) with hs_def
  have hs_pos : 0 < s := Real.sqrt_pos.mpr hinnerpos
  have hs_sq : s ^ 2 = EARTH_RADIUS_43 * EARTH_RADIUS_43 + b * b +
      2 * EARTH_RADIUS_43 * b * Real.sin eta := Real.sq_sqrt hinnerpos.le
  rw [show EARTH_RADIUS_43 + (s - EARTH_RADIUS_43) = s from by ring,
    Real.sin_add_pi_div_two]
  have hkey : s ^ 2 - (EARTH_RADIUS_43 * Real.cos eta) ^ 2 =
      (EARTH_RADIUS_43 * Real.sin eta + b) ^ 2 := by
    rw [hs_sq]
    linear_combination (-(EARTH_RADIUS_43 ^ 2)) * Real.sin_sq_add_cos_sq eta
  have hx0 : 0 ≤ EARTH_RADIUS_43 * Real.cos eta / s :=
    div_nonneg (mul_nonneg ha.le hcos.le) hs_pos.le
  have hx1 : EARTH_RADIUS_43 * Real.cos eta / s ≤ 1 := by
    rw [div_le_one hs_pos]
    nlinarith [hkey, sq_nonneg (EARTH_RADIUS_43 * Real.sin eta + b),
      mul_pos ha hcos, hs_pos]
  rw [show Real.pi - (eta + Real.pi / 2) -
        Real.arcsin (EARTH_RADIUS_43 * Real.cos eta / s) =
      Real.pi - ((eta + Real.pi / 2) +
        Real.arcsin (EARTH_RADIUS_43 * Real.cos eta / s)) from by ring,
    Real.sin_pi_sub, Real.sin_add, Real.sin_add_pi_div_two, Real.cos_add_pi_div_two,
    Real.sin_arcsin (by linarith) hx1, Real.cos_arcsin]
  have h1x : 1 - (EARTH_RADIUS_43 * Real.cos eta / s) ^ 2 =
      ((EARTH_RADIUS_43 * Real.sin eta + b) / s) ^ 2 := by
    field_simp
    linear_combination hkey
  have hsqrt : Real.sqrt (1 - (EARTH_RADIUS_43 * Real.cos eta / s) ^ 2) =
      (EARTH_RADIUS_43 * Real.sin eta + b) / s := by
    rw [h1x]
    exact Real.sqrt_sq (div_nonneg
      (add_nonneg (mul_nonneg ha.le hsin) hb.le) hs_pos.le)
  rw [hsqrt]
  field_simp
  ring

/-- C2: for η ∈ [0, 60°] and slant range b ∈ [1 km, 250 km], the round trip
`beamFromEtaH(η, heightFromEtaBeam(η, b))` equals `b` to within 1 m (in exact
real arithmetic the two functions are mutually inverse on this domain). -/
theorem beam_height_roundtrip (eta b : ℝ)
    (h1 : 0 ≤ eta) (h2 : eta ≤ Real.pi / 3) (h3 : 1000 ≤ b) (h4 : b ≤ 250000) :
    |beamFromEtaH eta (heightFromEtaBeam eta b) - b| ≤ 1 := by
  have heq : beamFromEtaH eta (heightFromEtaBeam eta b) = b :=
    beam_height_inverse eta b h1 (by linarith [Real.pi_pos]) (by linarith)
  rw [heq, sub_self, abs_zero]
  norm_num

/-- Witness for C2 at `η = 0`, `b = 1000`. -/
theorem beam_height_roundtrip_witness :
    (0 : ℝ) ≤ 0 ∧ (0 : ℝ) ≤ Real.pi / 3 ∧ (1000 : ℝ) ≤ 1000 ∧ (1000 : ℝ) ≤ 250000 ∧
    |beamFromEtaH 0 (heightFromEtaBeam 0 1000) - 1000| ≤ 1 :=
  ⟨le_refl 0, by positivity, le_refl 1000, by norm_num,
    beam_height_roundtrip 0 1000 (le_refl 0) (by positivity) (le_refl 1000) (by norm_num)⟩

/-- C5 counterexample: the claim quantifies over every elevation η and every
altitude h.  At η = -π/2 the height is not increasing in the beam distance
(`h(a) = -a < 0 = h(0)`), and at altitude `h = -2a` the beam distance is
strictly decreasing in β on (0, π/2) (`f(π/3) = a√3 < a√(2+√3) = f(π/6)`). -/
theorem monotonicity_counterexample :
    (0 : ℝ) < EARTH_RADIUS_43 ∧
    heightFromEtaBeam (-(Real.pi / 2)) EARTH_RADIUS_43 <
      heightFromEtaBeam (-(Real.pi / 2)) 0 ∧
    0 < Real.pi / 6 ∧ Real.pi / 6 < Real.pi / 3 ∧ Real.pi / 3 < Real.pi / 2 ∧
    beamFromBetaH (Real.pi / 3) (-(2 * EARTH_RADIUS_43)) <
      beamFromBetaH (Real.pi / 6) (-(2 * EARTH_RADIUS_43)) := by
  have ha : (0 : ℝ) < EARTH_RADIUS_43 := by norm_num [EARTH_RADIUS_43]
  have hpi := Real.pi_pos
  refine ⟨ha, ?_, by linarith, by linarith, by linarith, ?_⟩
  · unfold heightFromEtaBeam
    rw [show Real.pi / 2 + -(Real.pi / 2) = 0 from by ring, Real.cos_zero]
    rw [show EARTH_RADIUS_43 * EARTH_RADIUS_43 + EARTH_RADIUS_43 * EARTH_RADIUS_43 -
        2 * EARTH_RADIUS_43 * EARTH_RADIUS_43 * 1 = 0 from by ring, Real.sqrt_zero]
    rw [show EARTH_RADIUS_43 * EARTH_RADIUS_43 + (0 : ℝ) * 0 -
        2 * EARTH_RADIUS_43 * 0 * 1 = EARTH_RADIUS_43 ^ 2 from by ring,
      Real.sqrt_sq ha.le]
    linarith
  · unfold beamFromBetaH
    rw [Real.cos_pi_div_three, Real.cos_pi_div_six]
    have h13 : (1 : ℝ) < Real.sqrt 3 := by
      have hs := Real.sqrt_lt_sqrt (by norm_num : (0 : ℝ) ≤ 1) (by norm_num : (1 : ℝ) < 3)
      rwa [Real.sqrt_one] at hs
    apply Real.sqrt_lt_sqrt
    · nlinarith [mul_pos ha ha]
    · nlinarith [mul_pos ha ha]

/-- C5 (amended): `heightFromEtaBeam(η, ·)` is strictly increasing in the slant
range on `b ≥ 0` for elevations η ∈ [0, π/2]; and for altitudes `h > -a`,
`beamFromBetaH(·, h)` is strictly increasing in β on (0, π/2). -/
theorem monotonicity_amended :
    (∀ eta b1 b2 : ℝ, 0 ≤ eta → eta ≤ Real.pi / 2 → 0 ≤ b1 → b1 < b2 →
      heightFromEtaBeam eta b1 < heightFromEtaBeam eta b2) ∧
    (∀ h beta1 beta2 : ℝ, -EARTH_RADIUS_43 < h → 0 < beta1 → beta1 < beta2 →
      beta2 < Real.pi / 2 → beamFromBetaH beta1 h < beamFromBetaH beta2 h) := by
  have ha : (0 : ℝ) < EARTH_RADIUS_43 := by norm_num [EARTH_RADIUS_43]
  constructor
  · intro eta b1 b2 h0 hle hb1 hb12
    have hss : 0 ≤ Real.sin eta :=
      Real.sin_nonneg_of_nonneg_of_le_pi h0 (by linarith [Real.pi_pos])
    unfold heightFromEtaBeam
    rw [cos_pi_div_two_add_eq]
    apply sub_lt_sub_right
    apply Real.sqrt_lt_sqrt
    · nlinarith [mul_pos ha ha, sq_nonneg b1,
        mul_nonneg (mul_nonneg (mul_nonneg (by norm_num : (0 : ℝ) ≤ 2) ha.le) hb1) hss]
    · nlinarith [mul_self_lt_mul_self hb1 hb12,
        mul_nonneg (mul_nonneg (mul_nonneg (by norm_num : (0 : ℝ) ≤ 2) ha.le) hss)
          (sub_nonneg.mpr hb12.le)]
  · intro h beta1 beta2 hh hb1 hb12 hb2
    have hah : 0 < EARTH_RADIUS_43 + h := by linarith
    have hcc : Real.cos beta2 < Real.cos beta1 :=
      Real.cos_lt_cos_of_nonneg_of_le_pi hb1.le (by linarith [Real.pi_pos]) hb12
    have hc1 : Real.cos beta1 ≤ 1 := Real.cos_le_one beta1
    unfold beamFromBetaH
    apply Real.sqrt_lt_sqrt
    · nlinarith [mul_nonneg (mul_nonneg (by positivity : (0 : ℝ) ≤ 2 * EARTH_RADIUS_43)
          hah.le) (sub_nonneg.mpr hc1), sq_nonneg h]
    · nlinarith [mul_pos (mul_pos (by linarith : (0 : ℝ) < 2 * EARTH_RADIUS_43) hah)
        (sub_pos.mpr hcc)]

/-- Witness for C5 (amended): increasing in b at `η = 0` on `0 < 1`, increasing
in β at `h = 0` on `π/6 < π/4`. -/
theorem monotonicity_amended_witness :
    (0 : ℝ) ≤ 0 ∧ (0 : ℝ) ≤ Real.pi / 2 ∧ (0 : ℝ) < 1 ∧
    heightFromEtaBeam 0 0 < heightFromEtaBeam 0 1 ∧
    -EARTH_RADIUS_43 < 0 ∧ 0 < Real.pi / 6 ∧ Real.pi / 6 < Real.pi / 4 ∧
    Real.pi / 4 < Real.pi / 2 ∧
    beamFromBetaH (Real.pi / 6) 0 < beamFromBetaH (Real.pi / 4) 0 :=
  ⟨le_refl 0, by positivity, one_pos,
    monotonicity_amended.1 0 0 1 (le_refl 0) (by positivity) (le_refl 0) one_pos,
    by norm_num [EARTH_RADIUS_43], by positivity,
    by linarith [Real.pi_pos], by linarith [Real.pi_pos],
    monotonicity_amended.2 0 (Real.pi / 6) (Real.pi / 4) (by norm_num [EARTH_RADIUS_43])
      (by positivity) (by linarith [Real.pi_pos]) (by linarith [Real.pi_pos])⟩

/-! ## Claim theorems: C7, C8, C9 (ODIM attribute conversion) -/

/-- C7: on the write path at ODIM 2.4, each of `how/nomTXpower`, `how/peakpwr`,
`how/avgpwr` maps a double value `v > 0` (kW) to `10*log10(1000*v) + 30` (dBm)
and leaves `v ≤ 0` unchanged; `how/TXpower` applies the same rule element-wise. -/
theorem convertFromInternal_power (v : ℝ) (vs : List ℝ) :
    (0 < v →
      convertHowAttributeFromInternalRave "how/nomTXpower" RaveIO_ODIM_Version_2_4
          (.double v) = (.double (10 * Real.logb 10 (1000 * v) + 30), 1) ∧
      convertHowAttributeFromInternalRave "how/peakpwr" RaveIO_ODIM_Version_2_4
          (.double v) = (.double (10 * Real.logb 10 (1000 * v) + 30), 1) ∧
      convertHowAttributeFromInternalRave "how/avgpwr" RaveIO_ODIM_Version_2_4
          (.double v) = (.double (10 * Real.logb 10 (1000 * v) + 30), 1)) ∧
    (v ≤ 0 →
      convertHowAttributeFromInternalRave "how/nomTXpower" RaveIO_ODIM_Version_2_4
          (.double v) = (.double v, 1) ∧
      convertHowAttributeFromInternalRave "how/peakpwr" RaveIO_ODIM_Version_2_4
          (.double v) = (.double v, 1) ∧
      convertHowAttributeFromInternalRave "how/avgpwr" RaveIO_ODIM_Version_2_4
          (.double v) = (.double v, 1)) ∧
    convertHowAttributeFromInternalRave "how/TXpower" RaveIO_ODIM_Version_2_4
        (.doubleArray vs) =
      (.doubleArray (vs.map fun x => if 0 < x then 10 * Real.logb 10 (1000 * x) + 30 else x),
        1) := by
  have hnom : convertHowAttributeFromInternalRave "how/nomTXpower" RaveIO_ODIM_Version_2_4
      (.double v) = (.double (if 0 < v then 10 * Real.logb 10 (1000 * v) + 30 else v), 1) := rfl
  have hpeak : convertHowAttributeFromInternalRave "how/peakpwr" RaveIO_ODIM_Version_2_4
      (.double v) = (.double (if 0 < v then 10 * Real.logb 10 (1000 * v) + 30 else v), 1) := rfl
  have havg : convertHowAttributeFromInternalRave "how/avgpwr" RaveIO_ODIM_Version_2_4
      (.double v) = (.double (if 0 < v then 10 * Real.logb 10 (1000 * v) + 30 else v), 1) := rfl
  refine ⟨fun hv => ?_, fun hv => ?_, rfl⟩
  · rw [hnom, hpeak, havg, if_pos hv]
    exact ⟨rfl, rfl, rfl⟩
  · rw [hnom, hpeak, havg, if_neg (not_lt.mpr hv)]
    exact ⟨rfl, rfl, rfl⟩

/-- Witness for C7 at `v = 1` and `v = -2`. -/
theorem convertFromInternal_power_witness :
    (0 : ℝ) < 1 ∧ (-2 : ℝ) ≤ 0 ∧
    convertHowAttributeFromInternalRave "how/nomTXpower" RaveIO_ODIM_Version_2_4
        (.double 1) = (.double (10 * Real.logb 10 (1000 * 1) + 30), 1) ∧
    convertHowAttributeFromInternalRave "how/peakpwr" RaveIO_ODIM_Version_2_4
        (.double (-2)) = (.double (-2), 1) :=
  ⟨by norm_num, by norm_num,
    ((convertFromInternal_power 1 []).1 (by norm_num)).1,
    ((convertFromInternal_power (-2) []).2.1 (by norm_num)).2.1⟩

/-- C8: when the version argument is below ODIM 2.4, both conversion directions
leave any attribute value unchanged and return success (1). -/
theorem convert_noop_below_2_4 (name : String) (ver : Nat) (attr : RaveAttributeValue)
    (h : ver < RaveIO_ODIM_Version_2_4) :
    convertHowAttributeToInternalRave name ver attr = (attr, 1) ∧
    convertHowAttributeFromInternalRave name ver attr = (attr, 1) := by
  unfold convertHowAttributeToInternalRave convertHowAttributeFromInternalRave
  rw [if_pos h, if_pos h]
  exact ⟨rfl, rfl⟩

/-- Witness for C8 at version 2.3 on `how/gasattn` with value 5. -/
theorem convert_noop_below_2_4_witness :
    RaveIO_ODIM_Version_2_3 < RaveIO_ODIM_Version_2_4 ∧
    convertHowAttributeToInternalRave "how/gasattn" RaveIO_ODIM_Version_2_3
      (.double 5) = (.double 5, 1) ∧
    convertHowAttributeFromInternalRave "how/gasattn" RaveIO_ODIM_Version_2_3
      (.double 5) = (.double 5, 1) :=
  ⟨by decide,
    (convert_noop_below_2_4 "how/gasattn" RaveIO_ODIM_Version_2_3 (.double 5) (by decide)).1,
    (convert_noop_below_2_4 "how/gasattn" RaveIO_ODIM_Version_2_3 (.double 5) (by decide)).2⟩

/-- C9: on the read path at ODIM 2.4, the dBm-to-kW transform
`v ↦ 10^((v-30)/10)/1000` is applied to the power attributes with no positivity
guard (on every double value and element-wise on `how/TXpower`); hence the
write-then-read composition is the identity on `v > 0` but maps every `v ≤ 0`
to `10^((v-30)/10)/1000`, which differs from `v`. -/
theorem convertPower_roundtrip (v : ℝ) (vs : List ℝ) :
    convertHowAttributeToInternalRave "how/nomTXpower" RaveIO_ODIM_Version_2_4
        (.double v) = (.double ((10 : ℝ) ^ ((v - 30) / 10) / 1000), 1) ∧
    convertHowAttributeToInternalRave "how/peakpwr" RaveIO_ODIM_Version_2_4
        (.double v) = (.double ((10 : ℝ) ^ ((v - 30) / 10) / 1000), 1) ∧
    convertHowAttributeToInternalRave "how/avgpwr" RaveIO_ODIM_Version_2_4
        (.double v) = (.double ((10 : ℝ) ^ ((v - 30) / 10) / 1000), 1) ∧
    convertHowAttributeToInternalRave "how/TXpower" RaveIO_ODIM_Version_2_4
        (.doubleArray vs) =
      (.doubleArray (vs.map fun x => (10 : ℝ) ^ ((x - 30) / 10) / 1000), 1) ∧
    (0 < v →
      convertHowAttributeToInternalRave "how/nomTXpower" RaveIO_ODIM_Version_2_4
        (convertHowAttributeFromInternalRave "how/nomTXpower" RaveIO_ODIM_Version_2_4
          (.double v)).1 = (.double v, 1)) ∧
    (v ≤ 0 →
      convertHowAttributeToInternalRave "how/nomTXpower" RaveIO_ODIM_Version_2_4
        (convertHowAttributeFromInternalRave "how/nomTXpower" RaveIO_ODIM_Version_2_4
          (.double v)).1 = (.double ((10 : ℝ) ^ ((v - 30) / 10) / 1000), 1) ∧
      (10 : ℝ) ^ ((v - 30) / 10) / 1000 ≠ v) := by
  have hfrom : (convertHowAttributeFromInternalRave "how/nomTXpower" RaveIO_ODIM_Version_2_4
      (.double v)).1 = .double (if 0 < v then 10 * Real.logb 10 (1000 * v) + 30 else v) := rfl
  have hto : ∀ w : ℝ, convertHowAttributeToInternalRave "how/nomTXpower"
      RaveIO_ODIM_Version_2_4 (.double w) = (.double ((10 : ℝ) ^ ((w - 30) / 10) / 1000), 1) :=
    fun w => rfl
  refine ⟨rfl, rfl, rfl, rfl, fun hv => ?_, fun hv => ?_⟩
  · rw [hfrom, if_pos hv, hto]
    have harg : (10 * Real.logb 10 (1000 * v) + 30 - 30) / 10 = Real.logb 10 (1000 * v) := by
      ring
    rw [harg, Real.rpow_logb (by norm_num) (by norm_num) (by positivity)]
    have : (1000 : ℝ) * v / 1000 = v := by ring
    rw [this]
  · constructor
    · rw [hfrom, if_neg (not_lt.mpr hv), hto]
    · have hpos : (0 : ℝ) < (10 : ℝ) ^ ((v - 30) / 10) / 1000 := by
        have := Real.rpow_pos_of_pos (show (0 : ℝ) < 10 by norm_num) ((v - 30) / 10)
        positivity
      exact (lt_of_le_of_lt hv hpos).ne'

/-- Witness for C9 at `v = 1` (round trip identity) and `v = 0` (shifted). -/
theorem convertPower_roundtrip_witness :
    (0 : ℝ) < 1 ∧ (0 : ℝ) ≤ 0 ∧
    convertHowAttributeToInternalRave "how/nomTXpower" RaveIO_ODIM_Version_2_4
      (convertHowAttributeFromInternalRave "how/nomTXpower" RaveIO_ODIM_Version_2_4
        (.double 1)).1 = (.double 1, 1) ∧
    (10 : ℝ) ^ (((0 : ℝ) - 30) / 10) / 1000 ≠ (0 : ℝ) :=
  ⟨by norm_num, le_refl 0,
    (convertPower_roundtrip 1 []).2.2.2.2.1 (by norm_num),
    ((convertPower_roundtrip 0 []).2.2.2.2.2 (le_refl 0)).2⟩

/-! ## Claim theorems: C6, C10 (source-identifier parsing) -/

/-- C6: when the source contains the key, `getIdFromSource` extracts the
characters following the key up to the next comma and succeeds (given a buffer
that passes the length check); when the key is absent it fails writing nothing;
`getNodOrCmtFromSource` returns the `NOD:` value when available and otherwise
falls back to the `CMT:` value; on `"WMO:02954,NOD:sekir,CMT:Kiruna"` key
`NOD:` yields `"sekir"` and key `PLC:` yields nothing. -/
theorem getIdFromSource_correct :
    (∀ (source id : List Char) (buflen i : Nat),
      strstrIdx id source = some i →
      (takeUntilComma (source.drop (i + id.length))).length + 1 < buflen →
      OdimIoUtilities_getIdFromSource source id buflen =
        some (takeUntilComma (source.drop (i + id.length)))) ∧
    (∀ (source id : List Char) (buflen : Nat),
      strstrIdx id source = none →
      OdimIoUtilities_getIdFromSource source id buflen = none) ∧
    OdimIoUtilities_getIdFromSource "WMO:02954,NOD:sekir,CMT:Kiruna".toList
      "NOD:".toList 64 = some "sekir".toList ∧
    OdimIoUtilities_getIdFromSource "WMO:02954,NOD:sekir,CMT:Kiruna".toList
      "PLC:".toList 64 = none ∧
    (∀ (source : List Char) (buflen : Nat) (v : List Char),
      OdimIoUtilities_getIdFromSource source "NOD:".toList buflen = some v →
      OdimIoUtilities_getNodOrCmtFromSource source buflen = some v) ∧
    (∀ (source : List Char) (buflen : Nat),
      OdimIoUtilities_getIdFromSource source "NOD:".toList buflen = none →
      OdimIoUtilities_getNodOrCmtFromSource source buflen =
        OdimIoUtilities_getIdFromSource source "CMT:".toList buflen) ∧
    OdimIoUtilities_getNodOrCmtFromSource "WMO:02954,CMT:Kiruna".toList 64 =
      some "Kiruna".toList := by
  refine ⟨?_, ?_, by decide, by decide, ?_, ?_, by decide⟩
  · intro source id buflen i hocc hfit
    have hred : OdimIoUtilities_getIdFromSource source id buflen =
        if (takeUntilComma (source.drop (i + id.length))).length + 1 < buflen
        then some (takeUntilComma (source.drop (i + id.length))) else none := by
      unfold OdimIoUtilities_getIdFromSource
      rw [hocc]
    rw [hred, if_pos hfit]
  · intro source id buflen hocc
    unfold OdimIoUtilities_getIdFromSource
    rw [hocc]
  · intro source buflen v hnod
    unfold OdimIoUtilities_getNodOrCmtFromSource
    rw [hnod]
  · intro source buflen hnod
    unfold OdimIoUtilities_getNodOrCmtFromSource
    rw [hnod]

/-- Witness for C6 on `"NOD:sekir,CMT:Kiruna"` with buffer length 32. -/
theorem getIdFromSource_correct_witness :
    strstrIdx "NOD:".toList "NOD:sekir,CMT:Kiruna".toList = some 0 ∧
    (takeUntilComma ("NOD:sekir,CMT:Kiruna".toList.drop
      (0 + "NOD:".toList.length))).length + 1 < 32 ∧
    OdimIoUtilities_getIdFromSource "NOD:sekir,CMT:Kiruna".toList "NOD:".toList 32 =
      some (takeUntilComma ("NOD:sekir,CMT:Kiruna".toList.drop (0 + "NOD:".toList.length))) :=
  ⟨by decide, by decide,
    getIdFromSource_correct.1 "NOD:sekir,CMT:Kiruna".toList "NOD:".toList 32 0
      (by decide) (by decide)⟩

/-- C10: for a source containing the key, `getIdFromSource` succeeds exactly
when `len + 1 < buflen` (strict), so a buffer of exactly `len + 1` bytes —
enough for the value plus its NUL terminator — is rejected with failure and the
buffer is left unwritten. -/
theorem getIdFromSource_buffer_strict (source id : List Char) (buflen i : Nat)
    (hocc : strstrIdx id source = some i) :
    (OdimIoUtilities_getIdFromSource source id buflen =
        some (takeUntilComma (source.drop (i + id.length))) ↔
      (takeUntilComma (source.drop (i + id.length))).length + 1 < buflen) ∧
    (buflen = (takeUntilComma (source.drop (i + id.length))).length + 1 →
      OdimIoUtilities_getIdFromSource source id buflen = none) := by
  have hred : OdimIoUtilities_getIdFromSource source id buflen =
      if (takeUntilComma (source.drop (i + id.length))).length + 1 < buflen
      then some (takeUntilComma (source.drop (i + id.length))) else none := by
    unfold OdimIoUtilities_getIdFromSource
    rw [hocc]
  rw [hred]
  constructor
  · constructor
    · intro hsome
      by_contra hge
      rw [if_neg hge] at hsome
      exact Option.noConfusion hsome
    · intro hlt
      rw [if_pos hlt]
  · intro hbuf
    have : ¬ (takeUntilComma (source.drop (i + id.length))).length + 1 < buflen := by
      omega
    rw [if_neg this]

/-- Witness for C10: `"NOD:sekir"` with key `NOD:` has value `"sekir"` of
length 5, and a 6-byte buffer (value + NUL) is rejected. -/
theorem getIdFromSource_buffer_strict_witness :
    strstrIdx "NOD:".toList "NOD:sekir".toList = some 0 ∧
    (6 : Nat) = (takeUntilComma ("NOD:sekir".toList.drop (0 + "NOD:".toList.length))).length + 1 ∧
    OdimIoUtilities_getIdFromSource "NOD:sekir".toList "NOD:".toList 6 = none :=
  ⟨by decide, by decide,
    (getIdFromSource_buffer_strict "NOD:sekir".toList "NOD:".toList 6 0 (by decide)).2
      (by decide)⟩

end Rave
